import Mathlib

/-!
Verification development for the autotagger service.

We shallowly embed the pure/control parts of the four source files:

* src/autotagger/autotagger.py : the score-ranking helper _process_scores and
  the Autotagger.predict retry-on-device-fault logic;
* src/app.py                   : the AutotaggerRunner round-robin replica pool;
* src/inference_worker.py      : the line-oriented worker protocol adapter.

Scores are modelled as rationals (the code only compares and sorts scores, so
the ordered-field structure of the floats involved is all that matters).
External effects (the model computing a raw score batch, opening image files,
JSON parsing of a text line) are modelled as explicit oracle parameters; the
control flow around them is translated from the source.
-/

namespace Autotag

/-- A working triple of the scoring pipeline: (vocabulary index, tag, score).
The index records the position of the tag in the vocabulary, which is what a
stable sort keeps for equal scores. -/
abbrev Entry : Type := Nat × String × ℚ

/-- The total order used by the executable model for the DataFrame sort
sort_values("score", ascending=False) of _process_scores: descending by
score, ties by vocabulary position.  pandas reverses both the input and the
output of the ascending argsort, so a stable argsort kind produces exactly
this order; the source leaves the kind at numpy's default quicksort, which
is unstable in general and guarantees this tie order only in its small-array
insertion-sort regime.  The model must fix one deterministic order to be
executable; every theorem whose truth depends on the tie order is therefore
stated against StableDescSortOf, which quantifies over all admissible
descending sorts instead of this particular one. -/
def scoreRel (a b : Entry) : Prop :=
  b.2.2 < a.2.2 ∨ (a.2.2 = b.2.2 ∧ a.1 ≤ b.1)

instance : DecidableRel scoreRel := fun a b => by
  unfold scoreRel; exact inferInstance

instance : IsTotal Entry scoreRel where
  total a b := by
    rcases lt_trichotomy a.2.2 b.2.2 with h | h | h
    · exact Or.inr (Or.inl h)
    · rcases Nat.le_total a.1 b.1 with hi | hi
      · exact Or.inl (Or.inr ⟨h, hi⟩)
      · exact Or.inr (Or.inr ⟨h.symm, hi⟩)
    · exact Or.inl (Or.inl h)

instance : IsTrans Entry scoreRel where
  trans a b c hab hbc := by
    rcases hab with hab | ⟨hab, hia⟩
    · rcases hbc with hbc | ⟨hbc, _⟩
      · exact Or.inl (hbc.trans hab)
      · exact Or.inl (hbc ▸ hab)
    · rcases hbc with hbc | ⟨hbc, hib⟩
      · exact Or.inl (hab ▸ hbc)
      · exact Or.inr ⟨hab.trans hbc, hia.trans hib⟩

/-- Model of the Python dict assignment d[k] = v: if the key is already
present its value is updated in place (the entry keeps its position),
otherwise the pair is appended at the end (insertion order). -/
def dictInsert (m : List (String × ℚ)) (k : String) (v : ℚ) : List (String × ℚ) :=
  if m.any (fun p => p.1 == k) then
    m.map (fun p => if p.1 == k then (p.1, v) else p)
  else m ++ [(k, v)]

/-- Model of dict(zip(tags, scores)): fold the pairs into an insertion-ordered
dictionary, later occurrences of a key overwriting the earlier value. -/
def dictOfList (l : List (String × ℚ)) : List (String × ℚ) :=
  l.foldl (fun m p => dictInsert m p.1 p.2) []

/-- Embedding of _process_scores (src/autotagger/autotagger.py lines 11-14)
up to the point just before dict(...): pair each vocabulary entry with its
raw score (and its vocabulary position), keep the pairs with score >=
threshold (inclusive), sort descending by score (ties in vocabulary order,
see scoreLe), and truncate to the first limit rows (DataFrame.head). -/
def processScoresIdx (scores : List ℚ) (vocab : List String) (threshold : ℚ)
    (limit : Nat) : List Entry :=
  ((((vocab.zip scores).enum).filter
      (fun p => decide (threshold ≤ p.2.2))).insertionSort scoreRel).take limit

/-- Embedding of _process_scores (src/autotagger/autotagger.py lines 11-14):
the ranked rows converted to an insertion-ordered dictionary from tag to
score, exactly dict(zip(df.tag, df.score)). -/
def processScores (scores : List ℚ) (vocab : List String) (threshold : ℚ)
    (limit : Nat) : List (String × ℚ) :=
  dictOfList ((processScoresIdx scores vocab threshold limit).map (fun p => p.2))

/-- The rows of the score frame that survive the threshold filter of
_process_scores, each carrying its vocabulary position: the input of the
sort step. -/
def keptEntries (scores : List ℚ) (vocab : List String) (threshold : ℚ) :
    List Entry :=
  ((vocab.zip scores).enum).filter (fun p => decide (threshold ≤ p.2.2))

/-- The tail of _process_scores after the sort step: head(limit) followed by
dict(zip(df.tag, df.score)), applied to an already sorted frame. -/
def processScoresSorted (sorted : List Entry) (limit : Nat) :
    List (String × ℚ) :=
  dictOfList ((sorted.take limit).map (fun p => p.2))

/-- out is an admissible result of sort_values("score", ascending=False) on
the frame l under a stable sort kind: a permutation of l, non-increasing in
score, in which any two equal-score rows keep the relative order they had in
l.  pandas reverses both the input and the output of the ascending argsort,
so argsort stability yields exactly this descending tie order; numpy's
default quicksort guarantees it only in its small-array insertion-sort
regime, a stable kind always. -/
def StableDescSortOf (l out : List Entry) : Prop :=
  List.Perm out l ∧
  out.Pairwise (fun a b => b.2.2 ≤ a.2.2) ∧
  ∀ a ∈ l, ∀ b ∈ l, a.2.2 = b.2.2 →
    List.Sublist [a, b] l → List.Sublist [a, b] out

instance (l out : List Entry) : Decidable (StableDescSortOf l out) := by
  unfold StableDescSortOf
  exact inferInstance

/-- Sanity check: the end-to-end example of the spec.  Vocabulary
cat, dog, tree with raw scores 0.9, 0.05, 0.5, threshold 0.1 and limit 2
rank as cat then tree. -/
example :
    processScores [mkRat 9 10, mkRat 1 20, mkRat 1 2] ["cat", "dog", "tree"]
      (mkRat 1 10) 2 = [("cat", mkRat 9 10), ("tree", mkRat 1 2)] := by
  decide

/-- The compute device a replica is bound to: torch.device("cuda") or
torch.device("cpu"). -/
inductive Device
  | cuda
  | cpu
deriving DecidableEq, Repr

/-- The mutable per-replica state of one Autotagger instance
(src/autotagger/autotagger.py): its device, the autocast flag use_amp, the
DataLoader worker count, and the fixed vocabulary held by learn.dls. -/
structure TaggerState where
  device : Device
  useAmp : Bool
  numWorkers : Nat
  vocab : List String
deriving DecidableEq, Repr

/-- The state written by the CPU-fallback branch of Autotagger.predict
(src/autotagger/autotagger.py lines 78-82): device cpu, amp off,
single-process loading; the vocabulary is untouched. -/
def TaggerState.demote (st : TaggerState) : TaggerState :=
  { st with device := Device.cpu, useAmp := false, numWorkers := 0 }

/-- The outcome of one learn.get_preds scoring attempt, the external model
call treated as an oracle: either a raw score batch, or a raised exception
described by whether it is a RuntimeError and whether the lowercased message
contains the substring cuda. -/
inductive ScoreOutcome
  | ok (batch : List (List ℚ))
  | err (isRuntimeError : Bool) (cudaInMsg : Bool)
deriving DecidableEq, Repr

/-- A raised Python exception as far as the retry logic can observe it. -/
structure PyError where
  isRuntimeError : Bool
  cudaInMsg : Bool
deriving DecidableEq, Repr

/-- A device fault in the sense of the spec: a RuntimeError raised by the
accelerator runtime, recognised by Autotagger.predict through the test
at src/autotagger/autotagger.py line 76. -/
def PyError.isDeviceFault (e : PyError) : Prop :=
  e.isRuntimeError = true ∧ e.cudaInMsg = true

instance (e : PyError) : Decidable e.isDeviceFault := by
  unfold PyError.isDeviceFault; exact inferInstance

instance {ε α : Type} [DecidableEq ε] [DecidableEq α] : DecidableEq (Except ε α) := fun a b =>
  match a, b with
  | Except.ok x, Except.ok y =>
      if h : x = y then isTrue (congrArg Except.ok h)
      else isFalse (fun hc => h (Except.ok.inj hc))
  | Except.ok _, Except.error _ => isFalse (fun hc => Except.noConfusion hc)
  | Except.error _, Except.ok _ => isFalse (fun hc => Except.noConfusion hc)
  | Except.error x, Except.error y =>
      if h : x = y then isTrue (congrArg Except.error h)
      else isFalse (fun hc => h (Except.error.inj hc))

/-- What one call to Autotagger.predict produces: a result or a propagated
exception, the replica state after the call, and how many scoring attempts
(get_preds calls) were made. -/
structure PredictOut where
  result : Except PyError (List (List (String × ℚ)))
  state : TaggerState
  attempts : Nat
deriving DecidableEq, Repr

/-- Embedding of Autotagger.predict (src/autotagger/autotagger.py lines
57-93).  An empty file list returns immediately with no scoring attempt.
Otherwise the first attempt runs on the current device; a RuntimeError is
re-raised unless the device is cuda and the message mentions cuda, in which
case the instance is demoted to the CPU in place and the attempt is retried
exactly once; a failure of the retry propagates (the retry sits outside any
handler).  The successful raw batch is ranked per image by _process_scores.
The images themselves only reach the model, so their type is opaque. -/
def taggerPredict {Img : Type} (st : TaggerState) (files : List Img)
    (outcomes : Nat → ScoreOutcome) (threshold : ℚ) (limit : Nat) : PredictOut :=
  if files.isEmpty then
    { result := Except.ok [], state := st, attempts := 0 }
  else
    match outcomes 0 with
    | ScoreOutcome.ok batch =>
        { result := Except.ok (batch.map (fun s => processScores s st.vocab threshold limit)),
          state := st, attempts := 1 }
    | ScoreOutcome.err isRT cudaMsg =>
        if isRT = true ∧ st.device = Device.cuda ∧ cudaMsg = true then
          match outcomes 1 with
          | ScoreOutcome.ok batch =>
              { result := Except.ok
                  (batch.map (fun s => processScores s st.vocab threshold limit)),
                state := st.demote, attempts := 2 }
          | ScoreOutcome.err isRT2 cudaMsg2 =>
              { result := Except.error ⟨isRT2, cudaMsg2⟩,
                state := st.demote, attempts := 2 }
        else
          { result := Except.error ⟨isRT, cudaMsg⟩, state := st, attempts := 1 }

/-- The pool state of AutotaggerRunner (src/app.py lines 21-35): the mode
flag is_gpu fixed at startup, the ordered replica list, and the round-robin
cursor. -/
structure RunnerState where
  isGpu : Bool
  taggers : List TaggerState
  index : Nat
deriving DecidableEq, Repr

/-- Placeholder used only to model the Python list indexing
self._taggers[self._index]; the pool invariant index < length keeps it
unreachable. -/
def dfltTagger : TaggerState :=
  { device := Device.cpu, useAmp := false, numWorkers := 0, vocab := [] }

/-- Embedding of AutotaggerRunner.__init__ (src/app.py lines 22-35): a probe
replica is loaded first; if it landed on cuda the pool holds the probe plus
gpuParallelism - 1 further replicas (each freshly loaded, hence cuda-bound),
otherwise the probe alone; the cursor starts at 0. -/
def runnerInit (probe fresh : TaggerState) (gpuParallelism : Nat) : RunnerState :=
  if probe.device = Device.cuda then
    { isGpu := true,
      taggers := probe :: List.replicate (gpuParallelism - 1) fresh, index := 0 }
  else
    { isGpu := false, taggers := [probe], index := 0 }

/-- Embedding of AutotaggerRunner._next_tagger (src/app.py lines 37-41):
under the lock, read the replica at the cursor and advance the cursor by one
modulo the pool size. -/
def nextTagger (rs : RunnerState) : TaggerState × RunnerState :=
  (rs.taggers.getD rs.index dfltTagger,
   { rs with index := (rs.index + 1) % rs.taggers.length })

/-- The cursor values observed by k successive _next_tagger selections:
the replica index each sequential predict call is routed to. -/
def runSelections (rs : RunnerState) : Nat → List Nat
  | 0 => []
  | Nat.succ k => rs.index :: runSelections (nextTagger rs).2 k

/-- What one AutotaggerRunner.predict call produces: the result or the
propagated exception, the pool state after the call, the number of scoring
attempts, and which replica index served the call. -/
structure RunnerPredictOut where
  result : Except PyError (List (List (String × ℚ)))
  runner : RunnerState
  attempts : Nat
  selected : Nat
deriving DecidableEq, Repr

/-- Embedding of AutotaggerRunner.predict (src/app.py lines 43-49): select
the next replica round-robin, run Autotagger.predict on it (through the
executor in gpu mode, synchronously otherwise; either way the caller blocks
on the same computation, so the value is the same), and since the Python
tagger object is mutated in place, write the resulting replica state back at
the selected slot. -/
def runnerPredict {Img : Type} (rs : RunnerState) (images : List Img)
    (outcomes : Nat → ScoreOutcome) (threshold : ℚ) (limit : Nat) :
    RunnerPredictOut :=
  let i := rs.index
  let tg := rs.taggers.getD i dfltTagger
  let rs1 : RunnerState := { rs with index := (i + 1) % rs.taggers.length }
  let po := taggerPredict tg images outcomes threshold limit
  { result := po.result,
    runner := { rs1 with taggers := rs1.taggers.set i po.state },
    attempts := po.attempts,
    selected := i }

/-- JSON values as json.loads can return them. -/
inductive Json
  | null
  | bool (b : Bool)
  | num (q : ℚ)
  | str (s : String)
  | arr (items : List Json)
  | obj (fields : List (String × Json))

/-- The fields of a JSON object; none when the value is not an object, in
which case the Python attribute access req.get raises. -/
def Json.objFields? : Json → Option (List (String × Json))
  | Json.obj fs => some fs
  | _ => none

/-- Model of the dict lookup behind req.get(k): json.loads keeps the last
occurrence of a duplicated key, so the last matching binding wins. -/
def lookupLast (fs : List (String × Json)) (k : String) : Option Json :=
  ((fs.filter (fun p => p.1 == k)).getLast?).map (fun p => p.2)

/-- Model of the Python float(x) coercion on JSON values: numbers pass
through, booleans coerce to 0 and 1, anything else raises (numeric strings
are accepted by Python but never exercised by a claim, so a string raising
here is a deliberate simplification). -/
def pyFloat : Json → Option ℚ
  | Json.num q => some q
  | Json.bool b => some (if b then 1 else 0)
  | _ => none

/-- Model of the Python int(x) coercion on JSON values: numbers truncate
toward zero (Lean integer division on a reduced fraction truncates toward
zero exactly as Python int() does), booleans coerce to 0 and 1, anything
else raises. -/
def pyInt : Json → Option Int
  | Json.num q => some (q.num / (q.den : Int))
  | Json.bool b => some (if b then 1 else 0)
  | _ => none

/-- A character stripped by str.strip(): ASCII whitespace. -/
def isPySpace (c : Char) : Bool :=
  c = ' ' || c = '\t' || c = '\n' || c = '\r' || c = '\x0b' || c = '\x0c'

/-- Model of str.strip(): remove whitespace from both ends of the line. -/
def pyStrip (s : String) : String :=
  String.mk (((s.data.dropWhile isPySpace).reverse.dropWhile isPySpace).reverse)

/-- The textual classification the worker puts in an error response is
derived from the exception type (the f-string at src/inference_worker.py
line 53); the retry logic only distinguishes RuntimeError. -/
def errName (e : PyError) : String :=
  if e.isRuntimeError then "RuntimeError" else "Exception"

/-- Model of Path(path).name: the last slash-separated component. -/
def basename (s : String) : String :=
  (s.splitOn "/").getLastD s

/-- Model of Python iteration over the files value: lists yield their items,
strings their characters, objects their keys; other values raise a
TypeError. -/
def pyIter : Json → Except String (List Json)
  | Json.arr xs => Except.ok xs
  | Json.str s => Except.ok (s.data.map (fun c => Json.str (String.mk [c])))
  | Json.obj fs => Except.ok (fs.map (fun p => Json.str p.1))
  | _ => Except.error "TypeError"

/-- A files entry must be a string path for open(path) to be attempted. -/
def asPath : Json → Except String String
  | Json.str s => Except.ok s
  | _ => Except.error "TypeError"

/-- The open-and-decode loop of predict_files (src/inference_worker.py lines
25-28), with open + PILImage.create as the oracle load; the first raised
error aborts the whole request.  The decoded images are opaque, so the loop
returns the paths whose loads succeeded, in order. -/
def loadImages (load : String → Except String Unit) :
    List Json → Except String (List String)
  | [] => Except.ok []
  | j :: rest => do
      let p ← asPath j
      let _ ← load p
      let ps ← loadImages load rest
      pure (p :: ps)

/-- Embedding of predict_files (src/inference_worker.py lines 22-31): load
every file, predict on the loaded batch, and pair each basename with the
tags of its image, index-aligned by zip.  Negative limits (DataFrame.head
with a negative argument) are not modelled; every claim uses non-negative
limits. -/
def predictFiles (load : String → Except String Unit) (st : TaggerState)
    (outcomes : Nat → ScoreOutcome) (filesJ : Json) (threshold : ℚ)
    (lim : Int) : Except String (List (String × List (String × ℚ))) := do
  let items ← pyIter filesJ
  let paths ← loadImages load items
  let names := paths.map basename
  let po := taggerPredict st paths outcomes threshold lim.toNat
  match po.result with
  | Except.ok preds => Except.ok (names.zip preds)
  | Except.error e => Except.error (errName e)

/-- One worker response line: the id echoed back (JSON null when the request
id was never read) and either the predictions of a success response or the
error string of a failure response. -/
structure WorkerResponse where
  id : Json
  body : Except String (List (String × List (String × ℚ)))

/-- Embedding of the body of the per-line loop of main
(src/inference_worker.py lines 37-56), parameterized by the JSON parser
(parse; none models json.loads raising) and by predict_files (pf, applied to
the files value, threshold and limit; its error value models a raised
exception).  A blank stripped line yields none: the loop writes no response
for it.  Otherwise exactly one response is produced; any failure after the
id was read carries that id, a failure before (parse failure, or a non-object
request making req.get raise) carries null, exactly as req_id does in the
source. -/
def handleLine (parse : String → Option Json)
    (pf : Json → ℚ → Int → Except String (List (String × List (String × ℚ))))
    (line : String) : Option WorkerResponse :=
  let l := pyStrip line
  if l = "" then none
  else some (
    match parse l with
    | none => { id := Json.null, body := Except.error "JSONDecodeError" }
    | some req =>
      match req.objFields? with
      | none => { id := Json.null, body := Except.error "AttributeError" }
      | some fields =>
        let idv := (lookupLast fields "id").getD Json.null
        let filesJ := (lookupLast fields "files").getD (Json.arr [])
        let body :=
          match pyFloat ((lookupLast fields "threshold").getD (Json.num (mkRat 1 10))) with
          | none => Except.error "TypeError"
          | some th =>
            match pyInt ((lookupLast fields "limit").getD (Json.num 50)) with
            | none => Except.error "TypeError"
            | some lim => pf filesJ th lim
        { id := idv, body := body })

/-- Embedding of the main loop of the worker (src/inference_worker.py lines
37-58): every line of the input stream is processed in order; the loop stops
only when the stream ends. -/
def runWorker (parse : String → Option Json)
    (pf : Json → ℚ → Int → Except String (List (String × List (String × ℚ)))) :
    List String → List WorkerResponse
  | [] => []
  | line :: rest =>
    match handleLine parse pf line with
    | none => runWorker parse pf rest
    | some r => r :: runWorker parse pf rest

/-- The id the worker loop has read when it builds a response: null while
json.loads has not produced a dict, the id field of the dict afterwards
(req_id at src/inference_worker.py lines 42-45). -/
def reqIdOf (parse : String → Option Json) (line : String) : Json :=
  match parse (pyStrip line) with
  | none => Json.null
  | some req =>
    match req.objFields? with
    | none => Json.null
    | some fields => (lookupLast fields "id").getD Json.null

/-! ### Helper lemmas -/

theorem setGetD_self {α : Type} (l : List α) (i : Nat) (d : α)
    (h : i < l.length) : l.set i (l.getD i d) = l := by
  induction l generalizing i with
  | nil => cases h
  | cons a t ih =>
    cases i with
    | zero => rfl
    | succ n =>
      have hn : n < t.length := Nat.lt_of_succ_lt_succ h
      show a :: t.set n (t.getD n d) = a :: t
      rw [ih n hn]

theorem getD_set_self {α : Type} (l : List α) (i : Nat) (a d : α)
    (h : i < l.length) : (l.set i a).getD i d = a := by
  rw [List.getD_eq_getElem?_getD, List.getElem?_set_self h]
  rfl

theorem getD_set_ne {α : Type} (l : List α) (i j : Nat) (a d : α)
    (h : i ≠ j) : (l.set i a).getD j d = l.getD j d := by
  rw [List.getD_eq_getElem?_getD, List.getElem?_set_ne h,
    ← List.getD_eq_getElem?_getD]

/-- The cursor values seen by k successive selections starting at cursor i
are i, i+1, ... taken modulo the pool size. -/
theorem runSelections_formula (g : Bool) (ts : List TaggerState) (k : Nat) :
    ∀ i, i < ts.length →
      runSelections { isGpu := g, taggers := ts, index := i } k =
        (List.range k).map (fun j => (i + j) % ts.length) := by
  induction k with
  | zero => intro i _; rfl
  | succ k ih =>
    intro i hi
    have hN : 0 < ts.length := Nat.lt_of_le_of_lt (Nat.zero_le i) hi
    have hstep : (nextTagger { isGpu := g, taggers := ts, index := i }).2 =
        { isGpu := g, taggers := ts, index := (i + 1) % ts.length } := rfl
    rw [runSelections, hstep, ih ((i + 1) % ts.length) (Nat.mod_lt _ hN),
      List.range_succ_eq_map]
    simp only [List.map_cons, List.map_map]
    refine congrArg₂ List.cons ?_ ?_
    · exact (Nat.add_zero i ▸ (Nat.mod_eq_of_lt hi)).symm
    · refine List.map_congr_left ?_
      intro j _
      show ((i + 1) % ts.length + j) % ts.length = (i + Nat.succ j) % ts.length
      rw [Nat.mod_add_mod]
      exact congrArg (fun m => m % ts.length) (by omega)

/-! ### Claim theorems -/

/-- C2: in accelerator-pool mode with pool size N >= 1 and cursor 0, the
first N sequential predict calls select replicas 0, 1, ..., N-1, one each in
index order, and the call N+1 selects replica 0 again; every selection
advances the cursor to (cursor + 1) mod N. -/
theorem roundRobin_selection (N : Nat) (hN : 1 ≤ N) (ts : List TaggerState)
    (hlen : ts.length = N) :
    runSelections { isGpu := true, taggers := ts, index := 0 } N = List.range N ∧
    runSelections { isGpu := true, taggers := ts, index := 0 } (N + 1) =
      List.range N ++ [0] ∧
    (∀ rs : RunnerState,
      (nextTagger rs).2.index = (rs.index + 1) % rs.taggers.length) := by
  subst hlen
  have h0 : 0 < ts.length := hN
  have base := runSelections_formula true ts
  have hid : ∀ j, j < ts.length → (0 + j) % ts.length = j := by
    intro j hj
    rw [Nat.zero_add]
    exact Nat.mod_eq_of_lt hj
  refine ⟨?_, ?_, fun _ => rfl⟩
  · rw [base ts.length 0 h0]
    refine (List.map_congr_left ?_).trans (List.map_id _)
    intro j hj
    exact hid j (List.mem_range.mp hj)
  · rw [base (ts.length + 1) 0 h0, List.range_succ, List.map_append]
    refine congrArg₂ List.append ?_ ?_
    · refine (List.map_congr_left ?_).trans (List.map_id _)
      intro j hj
      exact hid j (List.mem_range.mp hj)
    · show [(0 + ts.length) % ts.length] = [0]
      rw [Nat.zero_add, Nat.mod_self]

/-- Witness for C2 at N = 3. -/
theorem roundRobin_selection_witness :
    runSelections
        { isGpu := true, taggers := [dfltTagger, dfltTagger, dfltTagger],
          index := 0 } 4 = [0, 1, 2, 0] :=
  (roundRobin_selection 3 (by decide) [dfltTagger, dfltTagger, dfltTagger]
    rfl).2.1

/-- C3: a predict call whose first scoring attempt fails with a device fault
(a RuntimeError mentioning cuda while the replica is on cuda) is retried
exactly once, on the replica freshly demoted to the general-purpose device;
the outcome of that second attempt is final: a success is returned, a second
failure propagates to the caller, and no third attempt is made. -/
theorem deviceFault_single_retry {Img : Type} (st : TaggerState)
    (files : List Img) (outcomes : Nat → ScoreOutcome) (threshold : ℚ)
    (limit : Nat) (hne : files ≠ []) (hdev : st.device = Device.cuda)
    (hfault : outcomes 0 = ScoreOutcome.err true true) :
    (taggerPredict st files outcomes threshold limit).attempts = 2 ∧
    (taggerPredict st files outcomes threshold limit).state = st.demote ∧
    (∀ b, outcomes 1 = ScoreOutcome.ok b →
      (taggerPredict st files outcomes threshold limit).result =
        Except.ok (b.map (fun s => processScores s st.vocab threshold limit))) ∧
    (∀ r c, outcomes 1 = ScoreOutcome.err r c →
      (taggerPredict st files outcomes threshold limit).result =
        Except.error { isRuntimeError := r, cudaInMsg := c }) := by
  cases files with
  | nil => exact absurd rfl hne
  | cons f fs =>
    cases h1 : outcomes 1 with
    | ok b =>
      refine ⟨?_, ?_, ?_, ?_⟩
      · simp [taggerPredict, hfault, hdev, h1]
      · simp [taggerPredict, hfault, hdev, h1]
      · intro b2 hb2
        cases hb2
        simp [taggerPredict, hfault, hdev, h1]
      · intro r2 c2 hrc
        exact ScoreOutcome.noConfusion hrc
    | err r c =>
      refine ⟨?_, ?_, ?_, ?_⟩
      · simp [taggerPredict, hfault, hdev, h1]
      · simp [taggerPredict, hfault, hdev, h1]
      · intro b2 hb2
        exact ScoreOutcome.noConfusion hb2
      · intro r2 c2 hrc
        cases hrc
        simp [taggerPredict, hfault, hdev, h1]

/-- Witness for C3: a cuda fault followed by a successful CPU retry. -/
theorem deviceFault_single_retry_witness :
    (taggerPredict
        { device := Device.cuda, useAmp := true, numWorkers := 0, vocab := [] }
        ["img"]
        (fun n => if n = 0 then ScoreOutcome.err true true else ScoreOutcome.ok [])
        0 5).attempts = 2 ∧
    (taggerPredict
        { device := Device.cuda, useAmp := true, numWorkers := 0, vocab := [] }
        ["img"]
        (fun n => if n = 0 then ScoreOutcome.err true true else ScoreOutcome.ok [])
        0 5).result = Except.ok [] :=
  ⟨(deviceFault_single_retry _ _ _ _ _ (by decide) rfl rfl).1,
   (deviceFault_single_retry _ _ _ _ _ (by decide) rfl rfl).2.2.1 [] rfl⟩

/-- C8: an error that is not a device fault propagates to the caller with no
retry; the only pool-state change of the call is the ordinary cursor advance
performed at selection time, so mode and the whole replica list are exactly
as before the call. -/
theorem nonDeviceFault_propagates {Img : Type} (rs : RunnerState)
    (images : List Img) (outcomes : Nat → ScoreOutcome) (threshold : ℚ)
    (limit : Nat) (hidx : rs.index < rs.taggers.length) (hne : images ≠ [])
    (r c : Bool) (hfail : outcomes 0 = ScoreOutcome.err r c)
    (hnf : ¬ (r = true ∧
      (rs.taggers.getD rs.index dfltTagger).device = Device.cuda ∧
      c = true)) :
    runnerPredict rs images outcomes threshold limit =
      { result := Except.error { isRuntimeError := r, cudaInMsg := c },
        runner := { rs with index := (rs.index + 1) % rs.taggers.length },
        attempts := 1,
        selected := rs.index } := by
  cases images with
  | nil => exact absurd rfl hne
  | cons f fs =>
    have hpred :
        taggerPredict (rs.taggers.getD rs.index dfltTagger) (f :: fs)
            outcomes threshold limit =
          { result := Except.error { isRuntimeError := r, cudaInMsg := c },
            state := rs.taggers.getD rs.index dfltTagger, attempts := 1 } := by
      simp only [taggerPredict, List.isEmpty_cons, Bool.false_eq_true,
        if_false, hfail]
      rw [if_neg hnf]
    simp only [runnerPredict, hpred]
    rw [setGetD_self rs.taggers rs.index dfltTagger hidx]

/-- Witness for C8: a non-RuntimeError failure on a cuda replica. -/
theorem nonDeviceFault_propagates_witness :
    runnerPredict
        { isGpu := true,
          taggers :=
            [{ device := Device.cuda, useAmp := true, numWorkers := 0,
               vocab := [] }],
          index := 0 }
        ["img"] (fun _ => ScoreOutcome.err false false) 0 5 =
      { result := Except.error { isRuntimeError := false, cudaInMsg := false },
        runner :=
          { isGpu := true,
            taggers :=
              [{ device := Device.cuda, useAmp := true, numWorkers := 0,
                 vocab := [] }],
            index := 0 },
        attempts := 1,
        selected := 0 } :=
  (nonDeviceFault_propagates _ _ _ _ _ (by decide) (by decide) false false
    rfl (by decide)).trans (by decide)

/-- C9: determinism of the Scoring Pipeline: two runs of the ranking step on
identical raw scores, vocabulary, threshold and limit yield identical ranked
output.  (The embedding fixes the deterministic tie order of the source
sort; see scoreRel.) -/
theorem scoring_deterministic (s1 s2 : List ℚ) (v1 v2 : List String)
    (t1 t2 : ℚ) (l1 l2 : Nat) (hs : s1 = s2) (hv : v1 = v2) (ht : t1 = t2)
    (hl : l1 = l2) :
    processScores s1 v1 t1 l1 = processScores s2 v2 t2 l2 := by
  subst hs
  subst hv
  subst ht
  subst hl
  rfl

/-- Witness for C9. -/
theorem scoring_deterministic_witness :
    processScores [mkRat 1 2, mkRat 1 2] ["a", "b"] 0 2 =
      processScores [mkRat 1 2, mkRat 1 2] ["a", "b"] 0 2 :=
  scoring_deterministic _ _ _ _ _ _ _ _ rfl rfl rfl rfl

/-- A replica as loaded on the accelerator. -/
def cudaTagger : TaggerState :=
  { device := Device.cuda, useAmp := true, numWorkers := 0, vocab := [] }

/-- A replica on the general-purpose device. -/
def cpuTagger : TaggerState :=
  { device := Device.cpu, useAmp := false, numWorkers := 0, vocab := [] }

/-- Counterexample to C1 as stated: a 2-replica accelerator pool whose call
hits a device fault (and recovers on the retry, attempts = 2).  Afterwards
the pool still holds 2 replicas, the mode flag is still the accelerator-pool
mode, and the non-faulting replica is still on the accelerator: the pool is
not collapsed to one replica and no pool-wide fallback mode is entered. -/
theorem pool_demotion_counterexample :
    (runnerPredict { isGpu := true, taggers := [cudaTagger, cudaTagger], index := 0 }
        ["img"]
        (fun n => if n = 0 then ScoreOutcome.err true true else ScoreOutcome.ok [])
        0 5).attempts = 2 ∧
    (runnerPredict { isGpu := true, taggers := [cudaTagger, cudaTagger], index := 0 }
        ["img"]
        (fun n => if n = 0 then ScoreOutcome.err true true else ScoreOutcome.ok [])
        0 5).runner.taggers.length = 2 ∧
    (runnerPredict { isGpu := true, taggers := [cudaTagger, cudaTagger], index := 0 }
        ["img"]
        (fun n => if n = 0 then ScoreOutcome.err true true else ScoreOutcome.ok [])
        0 5).runner.isGpu = true ∧
    ((runnerPredict { isGpu := true, taggers := [cudaTagger, cudaTagger], index := 0 }
        ["img"]
        (fun n => if n = 0 then ScoreOutcome.err true true else ScoreOutcome.ok [])
        0 5).runner.taggers.getD 1 dfltTagger).device = Device.cuda := by
  decide

/-- C1 corrected: on the first device fault from a replica, only that
replica is reinitialized on the general-purpose device — in place and
permanently, since a replica already on the general-purpose device is never
moved back — while the pool keeps its mode flag and all of its replicas;
every replica other than the faulting one is unchanged. -/
theorem deviceFault_per_replica_demotion {Img : Type} (rs : RunnerState)
    (images : List Img) (outcomes : Nat → ScoreOutcome) (threshold : ℚ)
    (limit : Nat) (hidx : rs.index < rs.taggers.length) (hne : images ≠ [])
    (hcuda : (rs.taggers.getD rs.index dfltTagger).device = Device.cuda)
    (hfault : outcomes 0 = ScoreOutcome.err true true) :
    (runnerPredict rs images outcomes threshold limit).runner.isGpu =
      rs.isGpu ∧
    (runnerPredict rs images outcomes threshold limit).runner.taggers.length =
      rs.taggers.length ∧
    (runnerPredict rs images outcomes threshold limit).runner.taggers.getD
        rs.index dfltTagger =
      (rs.taggers.getD rs.index dfltTagger).demote ∧
    (∀ j, j ≠ rs.index →
      (runnerPredict rs images outcomes threshold limit).runner.taggers.getD
          j dfltTagger = rs.taggers.getD j dfltTagger) ∧
    (∀ (st : TaggerState) (files2 : List Img) (o2 : Nat → ScoreOutcome)
        (t2 : ℚ) (l2 : Nat),
      st.device = Device.cpu →
        (taggerPredict st files2 o2 t2 l2).state = st) := by
  have honeway : ∀ (st : TaggerState) (files2 : List Img)
      (o2 : Nat → ScoreOutcome) (t2 : ℚ) (l2 : Nat),
      st.device = Device.cpu → (taggerPredict st files2 o2 t2 l2).state = st := by
    intro st files2 o2 t2 l2 hcpu
    cases files2 with
    | nil => rfl
    | cons f fs =>
      cases h0 : o2 0 with
      | ok b => simp [taggerPredict, h0]
      | err r c => simp [taggerPredict, h0, hcpu]
  cases images with
  | nil => exact absurd rfl hne
  | cons f fs =>
    have hcuda2 : ((rs.taggers[rs.index]?).getD dfltTagger).device =
        Device.cuda := by
      simpa using hcuda
    have hstate :
        (taggerPredict (rs.taggers.getD rs.index dfltTagger) (f :: fs)
            outcomes threshold limit).state =
          (rs.taggers.getD rs.index dfltTagger).demote := by
      cases h1 : outcomes 1 <;> simp [taggerPredict, hfault, hcuda2, h1]
    refine ⟨rfl, by simp [runnerPredict], ?_, ?_, honeway⟩
    · show ((rs.taggers.set rs.index _).getD rs.index dfltTagger) = _
      rw [getD_set_self rs.taggers rs.index _ dfltTagger hidx, hstate]
    · intro j hj
      show ((rs.taggers.set rs.index _).getD j dfltTagger) = _
      rw [getD_set_ne rs.taggers rs.index j _ dfltTagger (fun h => hj h.symm)]

/-- Witness for C1 corrected: a device fault on replica 0 of a 2-replica
pool demotes replica 0 in place and leaves replica 1 on the accelerator;
a replica already on the general-purpose device stays as it is. -/
theorem deviceFault_per_replica_demotion_witness :
    (runnerPredict { isGpu := true, taggers := [cudaTagger, cudaTagger], index := 0 }
        ["img"]
        (fun n => if n = 0 then ScoreOutcome.err true true else ScoreOutcome.ok [])
        0 5).runner.taggers.getD 0 dfltTagger = cudaTagger.demote ∧
    (runnerPredict { isGpu := true, taggers := [cudaTagger, cudaTagger], index := 0 }
        ["img"]
        (fun n => if n = 0 then ScoreOutcome.err true true else ScoreOutcome.ok [])
        0 5).runner.taggers.getD 1 dfltTagger = cudaTagger ∧
    (taggerPredict cpuTagger ["img"]
        (fun _ => ScoreOutcome.err true true) 0 5).state = cpuTagger :=
  ⟨(deviceFault_per_replica_demotion _ _ _ _ _ (by decide) (by decide)
      (by decide) rfl).2.2.1,
   (deviceFault_per_replica_demotion _ _ _ _ _ (by decide) (by decide)
      (by decide) rfl).2.2.2.1 1 (by decide),
   (deviceFault_per_replica_demotion
      { isGpu := true, taggers := [cudaTagger, cudaTagger], index := 0 }
      ["img"]
      (fun n => if n = 0 then ScoreOutcome.err true true else ScoreOutcome.ok [])
      0 5 (by decide) (by decide) (by decide) rfl).2.2.2.2 cpuTagger ["img"]
      (fun _ => ScoreOutcome.err true true) 0 5 rfl⟩

/-- C7: a well-formed request with an empty files list — parsed as the
object with id "a", files [], threshold 0.2 and limit 5 — is answered with
the success response carrying id "a" and an empty predictions list:
predict_files loads nothing, Autotagger.predict returns the empty result
sequence for an empty image sequence without any scoring attempt, and the
zip with the empty name list is empty. -/
theorem emptyFiles_empty_predictions (parse : String → Option Json)
    (load : String → Except String Unit) (st : TaggerState)
    (outcomes : Nat → ScoreOutcome) (line : String)
    (hblank : pyStrip line ≠ "")
    (hparse : parse (pyStrip line) =
      some (Json.obj
        [("id", Json.str "a"), ("files", Json.arr []),
         ("threshold", Json.num (mkRat 1 5)), ("limit", Json.num 5)])) :
    handleLine parse (predictFiles load st outcomes) line =
      some { id := Json.str "a", body := Except.ok [] } := by
  simp only [handleLine, hparse, if_neg hblank]
  rfl

/-- Witness for C7. -/
theorem emptyFiles_empty_predictions_witness :
    handleLine
        (fun s =>
          if s = "x" then
            some (Json.obj
              [("id", Json.str "a"), ("files", Json.arr []),
               ("threshold", Json.num (mkRat 1 5)), ("limit", Json.num 5)])
          else none)
        (predictFiles (fun _ => Except.ok ()) cpuTagger
          (fun _ => ScoreOutcome.ok []))
        "x" =
      some { id := Json.str "a", body := Except.ok [] } :=
  emptyFiles_empty_predictions _ _ _ _ _ (by decide) rfl

/-- C10: implicit defaults of the worker protocol: a well-formed request
missing files, threshold and limit is completed before prediction with
files = [], threshold = 0.1 and limit = 50, the defaults passing through the
float() and int() coercions, so a request holding only an id is served: its
body is whatever predict_files returns on those defaults, not a protocol
error. -/
theorem protocol_defaults (parse : String → Option Json)
    (pf : Json → ℚ → Int → Except String (List (String × List (String × ℚ))))
    (line : String) (idJ : Json) (hblank : pyStrip line ≠ "")
    (hparse : parse (pyStrip line) = some (Json.obj [("id", idJ)])) :
    handleLine parse pf line =
      some { id := idJ, body := pf (Json.arr []) (mkRat 1 10) 50 } := by
  simp only [handleLine, hparse, if_neg hblank]
  rfl

/-- Witness for C10. -/
theorem protocol_defaults_witness :
    handleLine (fun _ => some (Json.obj [("id", Json.str "a")]))
        (fun _ _ _ => Except.ok []) "x" =
      some { id := Json.str "a", body := Except.ok [] } :=
  protocol_defaults _ _ _ _ (by decide) rfl

/-! ### Facts about the scoring pipeline -/

theorem scoreRel_le {a b : Entry} (h : scoreRel a b) : b.2.2 ≤ a.2.2 := by
  rcases h with h | ⟨h, _⟩
  · exact le_of_lt h
  · exact le_of_eq h.symm

theorem processScoresIdx_mem {scores : List ℚ} {vocab : List String}
    {threshold : ℚ} {limit : Nat} :
    ∀ p ∈ processScoresIdx scores vocab threshold limit,
      p ∈ (vocab.zip scores).enum ∧ threshold ≤ p.2.2 := by
  intro p hp
  unfold processScoresIdx at hp
  have h1 : p ∈ ((vocab.zip scores).enum.filter
      (fun q => decide (threshold ≤ q.2.2))).insertionSort scoreRel :=
    (List.take_sublist _ _).subset hp
  rw [List.mem_insertionSort, List.mem_filter] at h1
  exact ⟨h1.1, of_decide_eq_true h1.2⟩

theorem processScoresIdx_sorted (scores : List ℚ) (vocab : List String)
    (threshold : ℚ) (limit : Nat) :
    (processScoresIdx scores vocab threshold limit).Pairwise scoreRel :=
  List.Pairwise.sublist (List.take_sublist _ _)
    (List.sorted_insertionSort scoreRel _)

theorem processScoresIdx_fst_pairwise (scores : List ℚ) (vocab : List String)
    (threshold : ℚ) (limit : Nat) :
    (processScoresIdx scores vocab threshold limit).Pairwise
      (fun p q => p.1 ≠ q.1) := by
  have henum : ((vocab.zip scores).enum).Pairwise
      (fun p q : Entry => p.1 ≠ q.1) := by
    have h := List.nodup_range (vocab.zip scores).length
    rw [← List.enum_map_fst] at h
    exact List.pairwise_map.mp h
  have hfil : ((vocab.zip scores).enum.filter
      (fun q => decide (threshold ≤ q.2.2))).Pairwise
        (fun p q => p.1 ≠ q.1) :=
    List.Pairwise.sublist (List.filter_sublist _) henum
  have hsor : (((vocab.zip scores).enum.filter
      (fun q => decide (threshold ≤ q.2.2))).insertionSort scoreRel).Pairwise
        (fun p q => p.1 ≠ q.1) :=
    ((List.perm_insertionSort scoreRel _).pairwise_iff
      (fun h => Ne.symm h)).mpr hfil
  unfold processScoresIdx
  exact List.Pairwise.sublist (List.take_sublist _ _) hsor

theorem processScoresIdx_getElemFacts {scores : List ℚ} {vocab : List String}
    {threshold : ℚ} {limit : Nat} :
    ∀ p ∈ processScoresIdx scores vocab threshold limit,
      vocab[p.1]? = some p.2.1 ∧ scores[p.1]? = some p.2.2 := by
  intro p hp
  have h := (processScoresIdx_mem p hp).1
  rw [List.mem_enum_iff_getElem?, List.getElem?_zip_eq_some] at h
  exact h

theorem dictInsert_mem {m : List (String × ℚ)} {k : String} {v : ℚ} :
    ∀ x ∈ dictInsert m k v, x ∈ m ∨ x = (k, v) := by
  intro x hx
  unfold dictInsert at hx
  by_cases h : m.any (fun p => p.1 == k) = true
  · rw [if_pos h, List.mem_map] at hx
    obtain ⟨p, hp, hpx⟩ := hx
    by_cases hk : (p.1 == k) = true
    · right
      rw [if_pos hk] at hpx
      rw [← hpx, eq_of_beq hk]
    · left
      rw [if_neg hk] at hpx
      rw [← hpx]
      exact hp
  · rw [if_neg h, List.mem_append] at hx
    rcases hx with hx | hx
    · exact Or.inl hx
    · right
      rw [List.mem_singleton] at hx
      exact hx

theorem dictOfList_subset : ∀ (l acc : List (String × ℚ)) (x : String × ℚ),
    x ∈ l.foldl (fun m p => dictInsert m p.1 p.2) acc → x ∈ acc ∨ x ∈ l := by
  intro l
  induction l with
  | nil => intro acc x hx; exact Or.inl hx
  | cons p t ih =>
    intro acc x hx
    rw [List.foldl_cons] at hx
    rcases ih (dictInsert acc p.1 p.2) x hx with h | h
    · rcases dictInsert_mem x h with h2 | h2
      · exact Or.inl h2
      · right
        rw [h2]
        exact List.mem_cons_self _ _
    · right
      exact List.mem_cons_of_mem _ h

theorem dictInsert_length (m : List (String × ℚ)) (k : String) (v : ℚ) :
    (dictInsert m k v).length ≤ m.length + 1 := by
  unfold dictInsert
  by_cases h : m.any (fun p => p.1 == k) = true
  · rw [if_pos h, List.length_map]
    omega
  · rw [if_neg h, List.length_append]
    simp

theorem dictOfList_length : ∀ (l acc : List (String × ℚ)),
    (l.foldl (fun m p => dictInsert m p.1 p.2) acc).length ≤
      acc.length + l.length := by
  intro l
  induction l with
  | nil => intro acc; simp
  | cons p t ih =>
    intro acc
    rw [List.foldl_cons]
    have h1 := ih (dictInsert acc p.1 p.2)
    have h2 := dictInsert_length acc p.1 p.2
    rw [List.length_cons]
    omega

theorem dictInsert_append (m : List (String × ℚ)) (k : String) (v : ℚ)
    (h : ∀ p ∈ m, p.1 ≠ k) : dictInsert m k v = m ++ [(k, v)] := by
  unfold dictInsert
  rw [if_neg]
  intro hc
  rw [List.any_eq_true] at hc
  obtain ⟨p, hp, hpk⟩ := hc
  exact h p hp (eq_of_beq hpk)

theorem foldl_dictInsert_eq : ∀ (l acc : List (String × ℚ)),
    (acc ++ l).Pairwise (fun p q => p.1 ≠ q.1) →
      l.foldl (fun m p => dictInsert m p.1 p.2) acc = acc ++ l := by
  intro l
  induction l with
  | nil => intro acc _; simp
  | cons p t ih =>
    intro acc h
    rw [List.foldl_cons]
    have hnk : ∀ q ∈ acc, q.1 ≠ p.1 := fun q hq =>
      (List.pairwise_append.mp h).2.2 q hq p (List.mem_cons_self _ _)
    rw [dictInsert_append acc p.1 p.2 hnk]
    have h2 : ((acc ++ [(p.1, p.2)]) ++ t).Pairwise
        (fun p q => p.1 ≠ q.1) := by
      rw [List.append_assoc, List.singleton_append]
      exact h
    rw [ih (acc ++ [(p.1, p.2)]) h2, List.append_assoc,
      List.singleton_append]

theorem dictOfList_eq_self (l : List (String × ℚ))
    (h : l.Pairwise (fun p q => p.1 ≠ q.1)) : dictOfList l = l := by
  have h2 := foldl_dictInsert_eq l [] (by simpa using h)
  simpa [dictOfList] using h2

theorem processScores_map_keys (scores : List ℚ) (vocab : List String)
    (threshold : ℚ) (limit : Nat) (hnd : vocab.Nodup) :
    ((processScoresIdx scores vocab threshold limit).map
        (fun p => p.2)).Pairwise (fun p q => p.1 ≠ q.1) := by
  rw [List.pairwise_map]
  refine (processScoresIdx_fst_pairwise scores vocab threshold limit).imp_of_mem
    ?_
  intro a b ha hb hne heq
  have hA := (processScoresIdx_getElemFacts a ha).1
  have hB := (processScoresIdx_getElemFacts b hb).1
  rw [heq] at hA
  obtain ⟨hAlt, _⟩ := List.getElem?_eq_some_iff.mp hA
  exact hne (List.getElem?_inj hAlt hnd (hA.trans hB.symm))

/-- The embedded _process_scores factors through the sorted-frame tail: its
sort step is the insertion sort by scoreRel applied to the kept rows. -/
theorem processScores_eq_sorted (scores : List ℚ) (vocab : List String)
    (threshold : ℚ) (limit : Nat) :
    processScores scores vocab threshold limit =
      processScoresSorted
        ((keptEntries scores vocab threshold).insertionSort scoreRel) limit :=
  rfl

theorem pair_sublist_get {α : Type} :
    ∀ (l : List α) (p q : Fin l.length), p.1 < q.1 →
      List.Sublist [l.get p, l.get q] l := by
  intro l
  induction l with
  | nil => intro p _ _; exact absurd p.2 (Nat.not_lt_zero _)
  | cons x t ih =>
    intro p q hpq
    cases p with
    | mk pv hp =>
      cases q with
      | mk qv hq =>
        cases qv with
        | zero => exact absurd hpq (Nat.not_lt_zero _)
        | succ qn =>
          cases pv with
          | zero =>
            refine List.Sublist.cons₂ x ?_
            exact List.singleton_sublist.mpr
              (List.get_mem t qn (Nat.lt_of_succ_lt_succ hq))
          | succ pn =>
            refine List.Sublist.cons x ?_
            exact ih ⟨pn, Nat.lt_of_succ_lt_succ hp⟩
              ⟨qn, Nat.lt_of_succ_lt_succ hq⟩ (Nat.lt_of_succ_lt_succ hpq)

theorem sublist_pair_positions {α : Type} :
    ∀ (l : List α) (x y : α), List.Sublist [x, y] l →
      ∃ (p q : Fin l.length), p.1 < q.1 ∧ l.get p = x ∧ l.get q = y := by
  intro l
  induction l with
  | nil =>
    intro x y h
    exact absurd (List.sublist_nil.mp h) (by simp)
  | cons z t ih =>
    intro x y h
    cases h with
    | cons a h2 =>
      obtain ⟨p, q, hpq, hx, hy⟩ := ih x y h2
      refine ⟨⟨p.1 + 1, Nat.succ_lt_succ p.2⟩, ⟨q.1 + 1, Nat.succ_lt_succ q.2⟩,
        Nat.succ_lt_succ hpq, ?_, ?_⟩
      · exact hx
      · exact hy
    | cons₂ a h2 =>
      rw [List.singleton_sublist] at h2
      obtain ⟨q, hq⟩ := List.mem_iff_get.mp h2
      exact ⟨⟨0, Nat.succ_pos _⟩, ⟨q.1 + 1, Nat.succ_lt_succ q.2⟩,
        Nat.succ_pos _, rfl, hq⟩

theorem keptEntries_fst_lt (scores : List ℚ) (vocab : List String)
    (threshold : ℚ) :
    (keptEntries scores vocab threshold).Pairwise (fun p q => p.1 < q.1) := by
  have henum : ((vocab.zip scores).enum).Pairwise
      (fun p q : Entry => p.1 < q.1) := by
    have h := List.pairwise_lt_range (vocab.zip scores).length
    rw [← List.enum_map_fst] at h
    exact List.pairwise_map.mp h
  exact List.Pairwise.sublist (List.filter_sublist _) henum

theorem keptEntries_getElemFacts {scores : List ℚ} {vocab : List String}
    {threshold : ℚ} :
    ∀ p ∈ keptEntries scores vocab threshold,
      vocab[p.1]? = some p.2.1 ∧ scores[p.1]? = some p.2.2 := by
  intro p hp
  unfold keptEntries at hp
  rw [List.mem_filter] at hp
  have h := hp.1
  rw [List.mem_enum_iff_getElem?, List.getElem?_zip_eq_some] at h
  exact h

/-- The model sort is one of the admissible stable descending sorts of the
kept rows (their vocabulary positions strictly increase, and scoreRel breaks
ties by exactly that position). -/
theorem insertionSort_stable (scores : List ℚ) (vocab : List String)
    (threshold : ℚ) :
    StableDescSortOf (keptEntries scores vocab threshold)
      ((keptEntries scores vocab threshold).insertionSort scoreRel) := by
  refine ⟨List.perm_insertionSort scoreRel _, ?_, ?_⟩
  · exact (List.sorted_insertionSort scoreRel _).imp (fun h => scoreRel_le h)
  · intro a ha b hb heq hsub
    have hpw := List.Pairwise.sublist hsub
      (keptEntries_fst_lt scores vocab threshold)
    have hfst : a.1 < b.1 :=
      (List.pairwise_cons.mp hpw).1 b (List.mem_singleton.mpr rfl)
    have hamem : a ∈ (keptEntries scores vocab threshold).insertionSort
        scoreRel := by
      rw [List.mem_insertionSort]
      exact ha
    have hbmem : b ∈ (keptEntries scores vocab threshold).insertionSort
        scoreRel := by
      rw [List.mem_insertionSort]
      exact hb
    obtain ⟨p, hp⟩ := List.mem_iff_get.mp hamem
    obtain ⟨q, hq⟩ := List.mem_iff_get.mp hbmem
    have hpq : p.1 < q.1 := by
      rcases Nat.lt_trichotomy p.1 q.1 with h1 | h1 | h1
      · exact h1
      · exfalso
        have hpe : p = q := Fin.ext h1
        rw [hpe, hq] at hp
        rw [hp] at hfst
        exact absurd hfst (lt_irrefl _)
      · exfalso
        have hrel := List.pairwise_iff_get.mp
          (List.sorted_insertionSort scoreRel _) q p h1
        rw [hp, hq] at hrel
        rcases hrel with h2 | ⟨h2, h3⟩
        · rw [heq] at h2
          exact absurd h2 (lt_irrefl _)
        · exact absurd hfst (Nat.not_lt.mpr h3)
    have hout := pair_sublist_get _ p q hpq
    rw [hp, hq] at hout
    exact hout

/-- In any admissible stable descending sort of a frame whose vocabulary
positions strictly increase, two equal-score rows appear in vocabulary
position order. -/
theorem stableSort_tie_fst {l out : List Entry} (hst : StableDescSortOf l out)
    (hfstl : l.Pairwise (fun p q => p.1 < q.1)) (i j : Nat) (hij : i < j)
    (hjo : j < out.length)
    (heq : (out.get ⟨i, Nat.lt_trans hij hjo⟩).2.2 =
      (out.get ⟨j, hjo⟩).2.2) :
    (out.get ⟨i, Nat.lt_trans hij hjo⟩).1 < (out.get ⟨j, hjo⟩).1 := by
  obtain ⟨hperm, hsort, hstab⟩ := hst
  have hio : i < out.length := Nat.lt_trans hij hjo
  have hofst : out.Pairwise (fun p q => p.1 ≠ q.1) :=
    (hperm.pairwise_iff (fun h => Ne.symm h)).mpr
      (hfstl.imp (fun h => Nat.ne_of_lt h))
  have hane : (out.get ⟨i, hio⟩).1 ≠ (out.get ⟨j, hjo⟩).1 :=
    List.pairwise_iff_get.mp hofst ⟨i, hio⟩ ⟨j, hjo⟩ hij
  rcases Nat.lt_or_ge (out.get ⟨i, hio⟩).1 (out.get ⟨j, hjo⟩).1 with hlt | hge
  · exact hlt
  exfalso
  have hba : (out.get ⟨j, hjo⟩).1 < (out.get ⟨i, hio⟩).1 :=
    Nat.lt_of_le_of_ne hge (fun h => hane h.symm)
  have hain : out.get ⟨i, hio⟩ ∈ l := hperm.subset (List.get_mem out i hio)
  have hbin : out.get ⟨j, hjo⟩ ∈ l := hperm.subset (List.get_mem out j hjo)
  obtain ⟨p, hp⟩ := List.mem_iff_get.mp hain
  obtain ⟨q, hq⟩ := List.mem_iff_get.mp hbin
  have hqp : q.1 < p.1 := by
    rcases Nat.lt_trichotomy q.1 p.1 with h1 | h1 | h1
    · exact h1
    · exfalso
      have hqe : q = p := Fin.ext h1
      rw [hqe, hp] at hq
      exact hane (by rw [hq])
    · exfalso
      have hrel := List.pairwise_iff_get.mp hfstl p q h1
      rw [hp, hq] at hrel
      exact Nat.lt_asymm hba hrel
  have hsubl := pair_sublist_get l q p hqp
  rw [hp, hq] at hsubl
  have hsubout := hstab _ hbin _ hain heq.symm hsubl
  obtain ⟨p2, q2, hp2q2, hb2, ha2⟩ := sublist_pair_positions out _ _ hsubout
  have hnodup : out.Nodup :=
    hofst.imp (fun h => fun heq2 => h (by rw [heq2]))
  have hp2 : p2 = ⟨j, hjo⟩ := (List.Nodup.get_inj_iff hnodup).mp hb2
  have hq2 : q2 = ⟨i, hio⟩ := (List.Nodup.get_inj_iff hnodup).mp ha2
  rw [hp2, hq2] at hp2q2
  exact Nat.lt_asymm hij hp2q2

/-- C5 corrected: Scoring Pipeline postconditions: every returned tag scores
at least the threshold (inclusive boundary), at most limit entries are
returned and limit = 0 yields the empty mapping, all for every vocabulary;
the non-increasing score order of the returned entries holds for
duplicate-free vocabularies (with a duplicated tag the final
dict(zip(...)) overwrite keeps a later, lower score at the earlier
position, see the counterexample). -/
theorem scoring_postconditions (scores : List ℚ) (vocab : List String)
    (threshold : ℚ) (limit : Nat) :
    (∀ p ∈ processScores scores vocab threshold limit, threshold ≤ p.2) ∧
    (processScores scores vocab threshold limit).length ≤ limit ∧
    (limit = 0 → processScores scores vocab threshold limit = []) ∧
    (vocab.Nodup →
      (processScores scores vocab threshold limit).Pairwise
        (fun p q => q.2 ≤ p.2)) := by
  have hthr : ∀ p ∈ processScores scores vocab threshold limit,
      threshold ≤ p.2 := by
    intro p hp
    unfold processScores dictOfList at hp
    rcases dictOfList_subset _ [] p hp with h | h
    · cases h
    · rw [List.mem_map] at h
      obtain ⟨q, hq, hqp⟩ := h
      rw [← hqp]
      exact (processScoresIdx_mem q hq).2
  have hlen : (processScores scores vocab threshold limit).length ≤ limit := by
    unfold processScores dictOfList
    have h1 := dictOfList_length
      ((processScoresIdx scores vocab threshold limit).map (fun q => q.2)) []
    have h2 : ((processScoresIdx scores vocab threshold limit).map
        (fun q => q.2)).length ≤ limit := by
      rw [List.length_map]
      unfold processScoresIdx
      exact List.length_take_le _ _
    have h0 : ([] : List (String × ℚ)).length = 0 := rfl
    omega
  refine ⟨hthr, hlen, ?_, ?_⟩
  · intro h0
    subst h0
    exact List.eq_nil_of_length_eq_zero (Nat.le_zero.mp hlen)
  · intro hnd
    unfold processScores
    rw [dictOfList_eq_self _
      (processScores_map_keys scores vocab threshold limit hnd),
      List.pairwise_map]
    exact (processScoresIdx_sorted scores vocab threshold limit).imp
      (fun hab => scoreRel_le hab)

/-- Witness for C5: limit 0 empties the output; a concrete ranked output is
non-increasing. -/
theorem scoring_postconditions_witness :
    processScores [mkRat 1 2, mkRat 1 2] ["a", "b"] 0 0 = [] ∧
    (processScores [mkRat 9 10, mkRat 1 2] ["a", "b"]
        (mkRat 1 10) 5).Pairwise (fun p q => q.2 ≤ p.2) :=
  ⟨(scoring_postconditions [mkRat 1 2, mkRat 1 2] ["a", "b"] 0 0).2.2.1 rfl,
   (scoring_postconditions [mkRat 9 10, mkRat 1 2] ["a", "b"]
      (mkRat 1 10) 5).2.2.2 (by decide)⟩

/-- Counterexample to C5 as universally stated: with the duplicated
vocabulary a, b, a and scores 0.9, 0.5, 0.1 (all above the threshold, limit
3) the ranked rows are (a, 0.9), (b, 0.5), (a, 0.1), and the final
dict(zip(...)) keeps tag a at its first position while overwriting its
score with the later 0.1, so the returned mapping is a to 0.1 then b to
0.5 — increasing, not non-increasing.  The three scores are distinct, so
the descending sort is unique and the trace is independent of the sort
kind. -/
theorem scoring_order_counterexample :
    processScores [mkRat 9 10, mkRat 1 2, mkRat 1 10] ["a", "b", "a"] 0 3 =
      [("a", mkRat 1 10), ("b", mkRat 1 2)] ∧
    ¬ (processScores [mkRat 9 10, mkRat 1 2, mkRat 1 10]
        ["a", "b", "a"] 0 3).Pairwise (fun p q => q.2 ≤ p.2) := by
  decide

/-- Counterexample to C4 as universally stated: with the duplicated
vocabulary a, b, b and scores 0.5, 0.9, 0.5 (threshold 0, limit 3) the
ranked output is b then a, both at score 0.5, although a is earlier in the
vocabulary: the dict overwrite of the duplicated tag b keeps the position of
its first, higher-scored occurrence.  At this 3-row frame numpy sorts by
insertion sort (stable), and both admissible descending sorts of the tied
rows give this same output, so the trace does not depend on the sort
kind. -/
theorem scoring_tie_counterexample :
    processScores [mkRat 1 2, mkRat 9 10, mkRat 1 2] ["a", "b", "b"] 0 3 =
      [("b", mkRat 1 2), ("a", mkRat 1 2)] ∧
    ["a", "b", "b"].indexOf "a" < ["a", "b", "b"].indexOf "b" := by
  decide

/-- C4 corrected: tie-breaking in the Scoring Pipeline: for a duplicate-free
vocabulary, and for every admissible result of the descending sort that is
stable on equal scores (which pandas produces exactly when the numpy argsort
kind is stable; the source's default quicksort provides it only in its
small-array insertion-sort regime), whenever two returned tags have equal
score the tag at the earlier output position is the one earlier in
vocabulary order. -/
theorem scoring_tie_vocab_order (scores : List ℚ) (vocab : List String)
    (threshold : ℚ) (limit : Nat) (hnd : vocab.Nodup) (out : List Entry)
    (hst : StableDescSortOf (keptEntries scores vocab threshold) out)
    (i j : Nat) (hij : i < j)
    (hj : j < (processScoresSorted out limit).length)
    (heq : ((processScoresSorted out limit).get ⟨i, Nat.lt_trans hij hj⟩).2 =
      ((processScoresSorted out limit).get ⟨j, hj⟩).2) :
    vocab.indexOf ((processScoresSorted out limit).get
        ⟨i, Nat.lt_trans hij hj⟩).1 <
      vocab.indexOf ((processScoresSorted out limit).get ⟨j, hj⟩).1 := by
  have hkfst := keptEntries_fst_lt scores vocab threshold
  have hperm := hst.1
  have hTmem : ∀ p ∈ out.take limit, p ∈ keptEntries scores vocab threshold :=
    fun p hp => hperm.subset ((List.take_sublist _ _).subset hp)
  have hofst : out.Pairwise (fun p q => p.1 ≠ q.1) :=
    (hperm.pairwise_iff (fun h => Ne.symm h)).mpr
      (hkfst.imp (fun h => Nat.ne_of_lt h))
  have hTfst : (out.take limit).Pairwise (fun p q => p.1 ≠ q.1) :=
    List.Pairwise.sublist (List.take_sublist _ _) hofst
  have hkeys : ((out.take limit).map (fun p => p.2)).Pairwise
      (fun p q => p.1 ≠ q.1) := by
    rw [List.pairwise_map]
    refine hTfst.imp_of_mem ?_
    intro a b ha hb hne heq2
    have hA := (keptEntries_getElemFacts a (hTmem a ha)).1
    have hB := (keptEntries_getElemFacts b (hTmem b hb)).1
    rw [heq2] at hA
    obtain ⟨hAlt, _⟩ := List.getElem?_eq_some_iff.mp hA
    exact hne (List.getElem?_inj hAlt hnd (hA.trans hB.symm))
  have hranked : processScoresSorted out limit =
      (out.take limit).map (fun p => p.2) := by
    unfold processScoresSorted
    exact dictOfList_eq_self _ hkeys
  have hbounds : j < limit ∧ j < out.length := by
    have h := hj
    rw [hranked, List.length_map, List.length_take] at h
    omega
  have hjo : j < out.length := hbounds.2
  have hio : i < out.length := Nat.lt_trans hij hjo
  have hpt : ∀ (k : Nat) (hk : k < (processScoresSorted out limit).length)
      (hko : k < out.length) (hkl : k < limit),
      (processScoresSorted out limit).get ⟨k, hk⟩ = (out.get ⟨k, hko⟩).2 := by
    intro k hk hko hkl
    have h2 : (processScoresSorted out limit)[k]? =
        some ((processScoresSorted out limit).get ⟨k, hk⟩) := by
      rw [List.getElem?_eq_getElem hk]
      rfl
    have h3 : (processScoresSorted out limit)[k]? =
        some ((out.get ⟨k, hko⟩).2) := by
      rw [hranked, List.getElem?_map, List.getElem?_take_of_lt hkl,
        List.getElem?_eq_getElem hko]
      rfl
    rw [h2] at h3
    exact Option.some.inj h3
  rw [hpt i (Nat.lt_trans hij hj) hio (Nat.lt_trans hij hbounds.1),
    hpt j hj hjo hbounds.1] at heq ⊢
  have htie := stableSort_tie_fst hst hkfst i j hij hjo heq
  have hA := (keptEntries_getElemFacts _
    (hperm.subset (List.get_mem out i hio))).1
  have hB := (keptEntries_getElemFacts _
    (hperm.subset (List.get_mem out j hjo))).1
  obtain ⟨hAlt, hAeq⟩ := List.getElem?_eq_some_iff.mp hA
  obtain ⟨hBlt, hBeq⟩ := List.getElem?_eq_some_iff.mp hB
  rw [← hAeq, ← hBeq, List.indexOf_getElem hnd _ hAlt,
    List.indexOf_getElem hnd _ hBlt]
  exact htie

/-- Witness for C4 corrected: two tags tied at score one half, sorted by the
model sort (an admissible stable descending sort by insertionSort_stable),
keep vocabulary order in the output. -/
theorem scoring_tie_vocab_order_witness :
    ["a", "b"].indexOf
        ((processScoresSorted
            ((keptEntries [mkRat 1 2, mkRat 1 2] ["a", "b"] 0).insertionSort
              scoreRel) 2).get ⟨0, by decide⟩).1 <
      ["a", "b"].indexOf
        ((processScoresSorted
            ((keptEntries [mkRat 1 2, mkRat 1 2] ["a", "b"] 0).insertionSort
              scoreRel) 2).get ⟨1, by decide⟩).1 :=
  scoring_tie_vocab_order [mkRat 1 2, mkRat 1 2] ["a", "b"] 0 2 (by decide)
    ((keptEntries [mkRat 1 2, mkRat 1 2] ["a", "b"] 0).insertionSort scoreRel)
    (insertionSort_stable [mkRat 1 2, mkRat 1 2] ["a", "b"] 0)
    0 1 (by decide) (by decide) (by decide)

theorem handleLine_eq_none_iff (parse : String → Option Json)
    (pf : Json → ℚ → Int → Except String (List (String × List (String × ℚ))))
    (line : String) :
    handleLine parse pf line = none ↔ pyStrip line = "" := by
  unfold handleLine
  by_cases h : pyStrip line = ""
  · simp [h]
  · simp [h]

/-- C6: protocol adapter invariant: over any input stream, the adapter
writes exactly one response per non-blank line (the response count equals
the non-blank line count); a blank line produces no response; every
response, success or failure, carries the request id the loop read for that
line (JSON null when parsing failed before an id could be read); and no
per-line outcome stops the loop: the remainder of the stream is always
processed, and only the end of the input list ends the run. -/
theorem worker_protocol_invariant (parse : String → Option Json)
    (pf : Json → ℚ → Int →
      Except String (List (String × List (String × ℚ)))) :
    (∀ lines : List String,
      (runWorker parse pf lines).length =
        (lines.filter (fun l => decide (pyStrip l ≠ ""))).length) ∧
    (∀ line, pyStrip line = "" → handleLine parse pf line = none) ∧
    (∀ line r, handleLine parse pf line = some r →
      r.id = reqIdOf parse line) ∧
    (∀ line, pyStrip line ≠ "" →
      handleLine parse pf line ≠ none) ∧
    (∀ line rest, runWorker parse pf (line :: rest) =
      (handleLine parse pf line).toList ++ runWorker parse pf rest) ∧
    runWorker parse pf [] = [] := by
  have hid : ∀ line r, handleLine parse pf line = some r →
      r.id = reqIdOf parse line := by
    intro line r hr
    unfold handleLine at hr
    by_cases hb : pyStrip line = ""
    · rw [if_pos hb] at hr
      exact Option.noConfusion hr
    · rw [if_neg hb] at hr
      have hr2 := Option.some.inj hr
      subst hr2
      unfold reqIdOf
      cases hp : parse (pyStrip line) with
      | none => simp only []
      | some req =>
        simp only []
        cases hv : req.objFields? with
        | none => simp only [hv]
        | some fields => simp only [hv]
  refine ⟨?_, ?_, hid, ?_, ?_, rfl⟩
  · intro lines
    induction lines with
    | nil => rfl
    | cons line rest ih =>
      by_cases h : pyStrip line = ""
      · have hn : handleLine parse pf line = none :=
          (handleLine_eq_none_iff parse pf line).mpr h
        simp only [runWorker, hn, List.filter_cons, h]
        simp [ih]
      · cases heq : handleLine parse pf line with
        | none =>
          rw [handleLine_eq_none_iff] at heq
          exact absurd heq h
        | some r =>
          simp only [runWorker, heq, List.filter_cons]
          simp [h, ih]
  · intro line h
    exact (handleLine_eq_none_iff parse pf line).mpr h
  · intro line h hn
    exact h ((handleLine_eq_none_iff parse pf line).mp hn)
  · intro line rest
    cases heq : handleLine parse pf line with
    | none => simp [runWorker, heq]
    | some r => simp [runWorker, heq]

/-- Witness for C6: a blank line and two further lines (one unparseable, one
well-formed) yield exactly two responses and the blank line none. -/
theorem worker_protocol_invariant_witness :
    (runWorker (fun s => if s = "b" then some (Json.obj [("id", Json.num 7)])
          else none)
        (fun _ _ _ => Except.ok []) [" ", "a", "b"]).length = 2 ∧
    handleLine (fun s => if s = "b" then some (Json.obj [("id", Json.num 7)])
        else none)
      (fun _ _ _ => Except.ok []) " " = none :=
  ⟨((worker_protocol_invariant
      (fun s => if s = "b" then some (Json.obj [("id", Json.num 7)]) else none)
      (fun _ _ _ => Except.ok [])).1 [" ", "a", "b"]).trans (by decide),
   (worker_protocol_invariant
      (fun s => if s = "b" then some (Json.obj [("id", Json.num 7)]) else none)
      (fun _ _ _ => Except.ok [])).2.1 " " (by decide)⟩

end Autotag
